import Mathlib

/-!
Verification of the memchunk JavaScript binding layer
(`src/packages/wasm/index.js`) and of its boundary-search engine.
The engine itself ships as a WASM module that is not part of the source
tree, so its behaviour is modelled from the specification (sections 4.3,
4.4, 4.5 and 7 of the design document).  Bytes are modelled as `Nat`,
buffers as `List Nat`, and the JavaScript `string | Uint8Array` union as
an explicit sum type.
-/

namespace Memchunk

/-- A JavaScript value that is either a string or a `Uint8Array`
(`text` inputs, `pattern` options and chunk outputs all have this shape
in `index.js`). -/
inductive JsVal where
  | str (s : String)
  | bytes (bs : List Nat)
deriving DecidableEq, Repr

/-- Models the WHATWG `TextEncoder`: UTF-8 encoding of a single character. -/
def utf8EncodeChar (c : Char) : List Nat :=
  let n := c.toNat
  if n < 0x80 then [n]
  else if n < 0x800 then [0xC0 + n / 0x40, 0x80 + n % 0x40]
  else if n < 0x10000 then
    [0xE0 + n / 0x1000, 0x80 + (n / 0x40) % 0x40, 0x80 + n % 0x40]
  else
    [0xF0 + n / 0x40000, 0x80 + (n / 0x1000) % 0x40,
      0x80 + (n / 0x40) % 0x40, 0x80 + n % 0x40]

/-- Models the WHATWG `TextEncoder` used by `index.js` (`encoder.encode`). -/
def utf8Encode (s : String) : List Nat :=
  (s.data.map utf8EncodeChar).flatten

/-- Is the byte a UTF-8 continuation byte? -/
def isCont (b : Nat) : Bool := 0x80 ≤ b && b < 0xC0

/-- Models the WHATWG `TextDecoder` used by `index.js` (`decoder.decode`):
decodes a byte list to characters, emitting U+FFFD for malformed input. -/
def utf8DecodeChars : List Nat → List Char
  | [] => []
  | b :: rest =>
    if b < 0x80 then Char.ofNat b :: utf8DecodeChars rest
    else if b < 0xC2 then Char.ofNat 0xFFFD :: utf8DecodeChars rest
    else if b < 0xE0 then
      match rest with
      | b1 :: rest1 =>
        (if isCont b1 then Char.ofNat ((b - 0xC0) * 0x40 + (b1 - 0x80))
          else Char.ofNat 0xFFFD) :: utf8DecodeChars rest1
      | [] => [Char.ofNat 0xFFFD]
    else if b < 0xF0 then
      match rest with
      | b1 :: b2 :: rest2 =>
        (if isCont b1 && isCont b2 then
          Char.ofNat ((b - 0xE0) * 0x1000 + (b1 - 0x80) * 0x40 + (b2 - 0x80))
          else Char.ofNat 0xFFFD) :: utf8DecodeChars rest2
      | _ => [Char.ofNat 0xFFFD]
    else
      match rest with
      | b1 :: b2 :: b3 :: rest3 =>
        (if isCont b1 && isCont b2 && isCont b3 then
          Char.ofNat ((b - 0xF0) * 0x40000 + (b1 - 0x80) * 0x1000 +
            (b2 - 0x80) * 0x40 + (b3 - 0x80))
          else Char.ofNat 0xFFFD) :: utf8DecodeChars rest3
      | _ => [Char.ofNat 0xFFFD]

/-- Models `decoder.decode` on a byte slice, producing a string. -/
def utf8Decode (bs : List Nat) : String := String.mk (utf8DecodeChars bs)

/-- Error taxonomy of the engine (spec section 7): the only error class is
`InvalidConfig`, raised at construction / entry time. -/
inductive ChunkError where
  | invalidConfig
deriving DecidableEq, Repr

/-- Modelled from the spec: the dual chunking mode (section 9), a tagged
variant choosing between a single-byte delimiter set and a literal
multi-byte pattern. -/
inductive Mode where
  | byDelimiterSet (ds : List Nat)
  | byPattern (pat : List Nat)
deriving DecidableEq, Repr

/-- Modelled from the spec: the engine configuration (section 3). -/
structure Configuration where
  targetSize : Nat
  mode : Mode
  prefixFlag : Bool
  consecutive : Bool
  forwardFallback : Bool
deriving DecidableEq, Repr

/-- A configuration is valid when the target size is positive and a
pattern, if that mode is selected, is non-empty (spec section 3). -/
def Configuration.valid (cfg : Configuration) : Bool :=
  decide (0 < cfg.targetSize) &&
    (match cfg.mode with
      | .byDelimiterSet _ => true
      | .byPattern pat => !pat.isEmpty)

/-- Modelled from the spec: the Delimiter Classifier (section 4.1),
membership of a byte in the configured delimiter set. -/
def isDelim (ds : List Nat) (b : Nat) : Bool := ds.contains b

/-- The byte of the buffer at an index (0 beyond the end; the engine only
ever reads in-bounds positions). -/
def byteAt (buf : List Nat) (i : Nat) : Nat := buf.getD i 0

/-- Modelled from the spec: the Pattern Matcher's test (section 4.2),
exact byte equality of the whole pattern starting at position `p`. -/
def matchAt (buf pat : List Nat) (p : Nat) : Bool :=
  pat.isPrefixOf (buf.drop p)

/-- Modelled from the spec: backward scan (section 4.3 step 3): the
position in `[lo, hi]` closest to `hi` satisfying `f`. -/
def scanBack (f : Nat → Bool) (lo hi : Nat) : Option Nat :=
  (List.range' lo (hi + 1 - lo)).reverse.find? f

/-- Modelled from the spec: forward scan (section 4.3 step 4): the
position in `[lo, hi]` closest to `lo` satisfying `f`. -/
def scanFwd (f : Nat → Bool) (lo hi : Nat) : Option Nat :=
  (List.range' lo (hi + 1 - lo)).find? f

/-- Modelled from the spec: start of the contiguous delimiter run ending
at `p` (section 4.3 step 3, `consecutive`): extend leftward while the
preceding byte also satisfies `f`. -/
def runStart (f : Nat → Bool) : Nat → Nat
  | 0 => 0
  | p + 1 => if f p then runStart f p else p + 1

/-- Fuel-driven helper for `patRunStart`; the fuel bounds the number of
leftward steps. -/
def patRunStartAux (buf pat : List Nat) : Nat → Nat → Nat
  | r, 0 => r
  | r, fuel + 1 =>
    if 0 < pat.length && pat.length ≤ r && matchAt buf pat (r - pat.length) then
      patRunStartAux buf pat (r - pat.length) fuel
    else r

/-- Modelled from the spec: start of a run of immediately adjacent
pattern occurrences ending at occurrence start `r` (section 4.3, pattern
mode `consecutive`). -/
def patRunStart (buf pat : List Nat) (r : Nat) : Nat :=
  patRunStartAux buf pat r r

/-- Modelled from the spec: split placement for a delimiter found at `p`
(section 4.3 step 3): run start when `consecutive`, before the delimiter
with `prefix`, otherwise immediately after it. -/
def placeDelim (buf ds : List Nat) (cfg : Configuration) (p : Nat) : Nat :=
  if cfg.consecutive then runStart (fun q => isDelim ds (byteAt buf q)) p
  else if cfg.prefixFlag then p
  else p + 1

/-- Modelled from the spec: split placement for a pattern occurrence
starting at `p` (section 4.3, pattern mode): run start when
`consecutive`, the pattern's start with `prefix`, otherwise its end. -/
def placePattern (buf pat : List Nat) (cfg : Configuration) (p : Nat) : Nat :=
  if cfg.consecutive then patRunStart buf pat p
  else if cfg.prefixFlag then p
  else p + pat.length

/-- Modelled from the spec: the backward-window candidate split offset
(section 4.3 step 3), searching `[cursor, limit]` for the occurrence
closest to `limit`. -/
def backCandidate (buf : List Nat) (cfg : Configuration) (cursor limit : Nat) :
    Option Nat :=
  match cfg.mode with
  | .byDelimiterSet ds =>
    (scanBack (fun p => isDelim ds (byteAt buf p)) cursor limit).map
      (placeDelim buf ds cfg)
  | .byPattern pat =>
    (scanBack (fun p => matchAt buf pat p) cursor limit).map
      (placePattern buf pat cfg)

/-- Modelled from the spec: the forward-fallback candidate split offset
(section 4.3 step 4), searching `[limit + 1, n - 1]` for the first
occurrence past the window. -/
def fwdCandidate (buf : List Nat) (cfg : Configuration) (limit n : Nat) :
    Option Nat :=
  match cfg.mode with
  | .byDelimiterSet ds =>
    (scanFwd (fun p => isDelim ds (byteAt buf p)) (limit + 1) (n - 1)).map
      (placeDelim buf ds cfg)
  | .byPattern pat =>
    (scanFwd (fun p => matchAt buf pat p) (limit + 1) (n - 1)).map
      (placePattern buf pat cfg)

/-- Modelled from the spec: the Boundary Finder (section 4.3): the next
split offset after `cursor`.  The remainder is returned whole when it
fits the window (step 2); otherwise the backward scan, then the optional
forward fallback, then the hard cut at `limit` decide the split, and the
degenerate case forces progress to at least `cursor + 1` (step 5). -/
def nextSplit (buf : List Nat) (cfg : Configuration) (cursor : Nat) : Nat :=
  if min (cursor + cfg.targetSize) buf.length = buf.length then buf.length
  else
    match backCandidate buf cfg cursor (min (cursor + cfg.targetSize) buf.length) with
    | some s => max s (cursor + 1)
    | none =>
      if cfg.forwardFallback then
        match fwdCandidate buf cfg (min (cursor + cfg.targetSize) buf.length)
            buf.length with
        | some s => max s (cursor + 1)
        | none => max (min (cursor + cfg.targetSize) buf.length) (cursor + 1)
      else max (min (cursor + cfg.targetSize) buf.length) (cursor + 1)

/-- Modelled from the spec: the Batch Offsets loop (section 4.5), driving
the Boundary Finder to exhaustion.  The fuel is a step bound; it is
instantiated so that it never runs out (the cursor strictly increases). -/
def offsetsLoop (buf : List Nat) (cfg : Configuration) : Nat → Nat → List (Nat × Nat)
  | _, 0 => []
  | cursor, fuel + 1 =>
    if buf.length ≤ cursor then []
    else
      (cursor, nextSplit buf cfg cursor) ::
        offsetsLoop buf cfg (nextSplit buf cfg cursor) fuel

/-- Modelled from the spec: the full ordered list of chunk ranges of a
buffer under a configuration (section 4.5). -/
def chunkOffsetsCore (buf : List Nat) (cfg : Configuration) : List (Nat × Nat) :=
  offsetsLoop buf cfg 0 (buf.length + 1)

/-- Flatten a pair list into the flat offset array shape the WASM entry
points return (`[s0, e0, s1, e1, ...]`). -/
def flattenPairs : List (Nat × Nat) → List Nat
  | [] => []
  | (a, b) :: rest => a :: b :: flattenPairs rest

/-- Pair up a flat offset array, as the loops in `chunk_offsets` and
`Chunker.collectOffsets` of `index.js` do (`i += 2`). -/
def toPairs : List Nat → List (Nat × Nat)
  | a :: b :: rest => (a, b) :: toPairs rest
  | _ => []

/-- Modelled from the spec: the engine's default target size constant
(section 6, `default_target_size` re-exported by `index.js`). -/
def default_target_size : Nat := 4096

/-- Modelled from the spec: the engine's default delimiter set constant
(section 6, `default_delimiters` re-exported by `index.js`). -/
def default_delimiters : String := "\n.?"

/-- Modelled from the spec: the WASM `chunk_offsets` entry point
(delimiter-set mode, section 4.5 and 6): validates the target size, then
returns the flat offset list. -/
def wasmChunkOffsets (buf : List Nat) (size : Option Nat) (delims : Option String)
    (pfx : Option Bool) : Except ChunkError (List Nat) :=
  if size.getD default_target_size = 0 then .error .invalidConfig
  else
    .ok (flattenPairs (chunkOffsetsCore buf
      (Configuration.mk (size.getD default_target_size)
        (Mode.byDelimiterSet (utf8Encode (delims.getD default_delimiters)))
        (pfx.getD false) false false)))

/-- Modelled from the spec: the WASM `chunk_offsets_pattern` entry point
(pattern mode, section 4.5 and 6): validates the target size and the
non-emptiness of the pattern, then returns the flat offset list. -/
def wasmChunkOffsetsPattern (buf : List Nat) (size : Nat) (pat : List Nat)
    (pfx consec fwd : Option Bool) : Except ChunkError (List Nat) :=
  if size = 0 then .error .invalidConfig
  else if pat.isEmpty then .error .invalidConfig
  else
    .ok (flattenPairs (chunkOffsetsCore buf
      (Configuration.mk size (Mode.byPattern pat)
        (pfx.getD false) (consec.getD false) (fwd.getD false))))

/-- Modelled from the spec: the stateful Chunker (section 3 and 4.4):
borrowed buffer, configuration, cursor and exhaustion flag. -/
structure ChunkerState where
  buffer : List Nat
  config : Configuration
  cursor : Nat
  exhausted : Bool
deriving DecidableEq, Repr

/-- Modelled from the spec: a freshly constructed chunker state
(section 4.4): `Active` with `cursor = 0`. -/
def ChunkerState.fresh (buf : List Nat) (cfg : Configuration) : ChunkerState :=
  ChunkerState.mk buf cfg 0 false

/-- Modelled from the spec: the `advance` operation (section 4.4):
returns the next `(start, end)` range, or `none` once exhausted, and the
successor state. -/
def ChunkerState.advance (s : ChunkerState) : Option (Nat × Nat) × ChunkerState :=
  if s.exhausted then (none, s)
  else if s.buffer.length ≤ s.cursor then
    (none, ChunkerState.mk s.buffer s.config s.cursor true)
  else
    (some (s.cursor, nextSplit s.buffer s.config s.cursor),
      ChunkerState.mk s.buffer s.config (nextSplit s.buffer s.config s.cursor)
        (nextSplit s.buffer s.config s.cursor == s.buffer.length))

/-- Drive `advance` repeatedly, collecting the yielded ranges; the fuel
bounds the number of steps and is instantiated large enough to reach
exhaustion. -/
def runFuel : Nat → ChunkerState → List (Nat × Nat)
  | 0, _ => []
  | fuel + 1, s =>
    match s.advance with
    | (some pr, s') => pr :: runFuel fuel s'
    | (none, _) => []

/-- All ranges yielded by iterating a chunker state to exhaustion. -/
def ChunkerState.run (s : ChunkerState) : List (Nat × Nat) :=
  runFuel (s.buffer.length + 1) s

/-- State left behind after driving `advance` for `fuel` steps. -/
def drainFuel : Nat → ChunkerState → ChunkerState
  | 0, s => s
  | fuel + 1, s =>
    match s.advance with
    | (some _, s') => drainFuel fuel s'
    | (none, s') => s'

/-- The state of a chunker after iterating it to exhaustion. -/
def ChunkerState.drain (s : ChunkerState) : ChunkerState :=
  drainFuel (s.buffer.length + 1) s

/-- Modelled from the spec: the WASM `Chunker.next` (section 4.4):
yields the chunk bytes (a view into the buffer) or `none`. -/
def ChunkerState.next (s : ChunkerState) : Option (List Nat) × ChunkerState :=
  match s.advance with
  | (none, s') => (none, s')
  | (some pr, s') => (some ((s.buffer.drop pr.1).take (pr.2 - pr.1)), s')

/-- Modelled from the spec: the WASM `Chunker.reset` (section 4.4):
cursor rewound to 0, state back to `Active`. -/
def ChunkerState.reset (s : ChunkerState) : ChunkerState :=
  ChunkerState.mk s.buffer s.config 0 false

/-- Modelled from the spec: the WASM `Chunker.collect_offsets`
(section 4.4): drains the remaining ranges from the current cursor into
a flat offset list. -/
def ChunkerState.collect_offsets (s : ChunkerState) : List Nat :=
  flattenPairs s.run

/-- Modelled from the spec: the WASM `Chunker` constructor
(delimiter-set mode, section 4.4): validates the target size. -/
def ChunkerState.construct (buf : List Nat) (size : Option Nat)
    (delims : Option String) (pfx : Option Bool) :
    Except ChunkError ChunkerState :=
  if size.getD default_target_size = 0 then .error .invalidConfig
  else
    .ok (ChunkerState.fresh buf
      (Configuration.mk (size.getD default_target_size)
        (Mode.byDelimiterSet (utf8Encode (delims.getD default_delimiters)))
        (pfx.getD false) false false))

/-- Modelled from the spec: the WASM `Chunker.with_pattern` constructor
(pattern mode, section 4.4): validates the target size and the
non-emptiness of the pattern. -/
def ChunkerState.with_pattern (buf : List Nat) (size : Nat) (pat : List Nat)
    (pfx consec fwd : Option Bool) : Except ChunkError ChunkerState :=
  if size = 0 then .error .invalidConfig
  else if pat.isEmpty then .error .invalidConfig
  else
    .ok (ChunkerState.fresh buf
      (Configuration.mk size (Mode.byPattern pat)
        (pfx.getD false) (consec.getD false) (fwd.getD false)))

/-- The options bag of `index.js` (`size`, `delimiters`, `pattern`,
`prefix`, `consecutive`, `forwardFallback`); every field is optional.
The `prefix` field is named `prefixFlag` here. -/
structure JsOptions where
  size : Option Nat
  delimiters : Option String
  pattern : Option JsVal
  prefixFlag : Option Bool
  consecutive : Option Bool
  forwardFallback : Option Bool
deriving DecidableEq, Repr

/-- JavaScript truthiness of the `pattern` option as tested by
`if (pattern)` in `index.js`: `undefined` and the empty string are
falsy; every other string and every `Uint8Array` (even an empty one) is
truthy. -/
def truthy : Option JsVal → Bool
  | none => false
  | some (.str s) => !(s == "")
  | some (.bytes _) => true

/-- The `toBytes` helper of `index.js` (line 41): encode strings,
pass byte arrays through. -/
def toBytes : JsVal → List Nat
  | .str s => utf8Encode s
  | .bytes bs => bs

/-- The pattern bytes handed to the WASM layer
(`toBytes(pattern)` in `index.js`; only reached when truthy). -/
def patternToBytes : Option JsVal → List Nat
  | some v => toBytes v
  | none => []

/-- The `typeof text === 'string'` test of `index.js`. -/
def isStringVal : JsVal → Bool
  | .str _ => true
  | .bytes _ => false

/-- The `bytes.subarray(a, b)` view taken by `index.js` (modelled by its
contents). -/
def sliceBytes (bs : List Nat) (a b : Nat) : List Nat :=
  (bs.drop a).take (b - a)

/-- The `isString ? decoder.decode(slice) : slice` step of `index.js`. -/
def renderChunk (isStr : Bool) (bs : List Nat) : JsVal :=
  if isStr then .str (utf8Decode bs) else .bytes bs

/-- The yield loop of the `chunk` generator in `index.js` (lines 84-87):
walk the flat offset list two entries at a time, slicing and rendering. -/
def chunkLoop (isStr : Bool) (bytes : List Nat) : List Nat → List JsVal
  | a :: b :: rest => renderChunk isStr (sliceBytes bytes a b) :: chunkLoop isStr bytes rest
  | _ => []

/-- The `chunk` generator of `index.js` (lines 71-88): dispatch on the
truthiness of `pattern`, call the matching WASM entry point, then slice
and render each chunk.  A WASM `InvalidConfig` error surfaces to the
caller. -/
def chunk (text : JsVal) (opts : JsOptions) : Except ChunkError (List JsVal) :=
  (if truthy opts.pattern then
      wasmChunkOffsetsPattern (toBytes text) (opts.size.getD 4096)
        (patternToBytes opts.pattern) opts.prefixFlag opts.consecutive
        opts.forwardFallback
    else
      wasmChunkOffsets (toBytes text) opts.size opts.delimiters opts.prefixFlag).map
    (chunkLoop (isStringVal text) (toBytes text))

/-- The `chunk_offsets` function of `index.js` (lines 104-121): same
dispatch as `chunk`, but pairing up the flat offset list instead of
slicing. -/
def chunk_offsets (text : JsVal) (opts : JsOptions) :
    Except ChunkError (List (Nat × Nat)) :=
  (if truthy opts.pattern then
      wasmChunkOffsetsPattern (toBytes text) (opts.size.getD 4096)
        (patternToBytes opts.pattern) opts.prefixFlag opts.consecutive
        opts.forwardFallback
    else
      wasmChunkOffsets (toBytes text) opts.size opts.delimiters opts.prefixFlag).map
    toPairs

/-- The `Chunker` class of `index.js` (lines 153-225): remembers whether
the input was a string and wraps the WASM chunker. -/
structure JsChunker where
  isStringInput : Bool
  inner : ChunkerState
deriving DecidableEq, Repr

/-- The `Chunker` constructor of `index.js` (lines 165-176): dispatch on
the truthiness of `pattern` to one of the two WASM constructors. -/
def JsChunker.construct (text : JsVal) (opts : JsOptions) :
    Except ChunkError JsChunker :=
  if truthy opts.pattern then
    (ChunkerState.with_pattern (toBytes text) (opts.size.getD 4096)
      (patternToBytes opts.pattern) opts.prefixFlag opts.consecutive
      opts.forwardFallback).map (fun st => JsChunker.mk (isStringVal text) st)
  else
    (ChunkerState.construct (toBytes text) opts.size opts.delimiters
      opts.prefixFlag).map (fun st => JsChunker.mk (isStringVal text) st)

/-- The `Chunker.next` method of `index.js` (lines 182-186): take the
next WASM chunk and decode it when the input was a string. -/
def JsChunker.nextJs (c : JsChunker) : Option JsVal × JsChunker :=
  match ChunkerState.next c.inner with
  | (none, s') => (none, JsChunker.mk c.isStringInput s')
  | (some bs, s') => (some (renderChunk c.isStringInput bs), JsChunker.mk c.isStringInput s')

/-- The `Chunker.reset` method of `index.js` (lines 191-193). -/
def JsChunker.resetJs (c : JsChunker) : JsChunker :=
  JsChunker.mk c.isStringInput (ChunkerState.reset c.inner)

/-- The `Chunker.collectOffsets` method of `index.js` (lines 200-207):
pair up the flat offsets collected by the WASM chunker. -/
def JsChunker.collectOffsets (c : JsChunker) : List (Nat × Nat) :=
  toPairs (ChunkerState.collect_offsets c.inner)

/-- The iterator protocol of `index.js` (lines 219-224): drive the WASM
chunker to exhaustion, rendering each yielded chunk. -/
def JsChunker.iterate (c : JsChunker) : List JsVal :=
  (ChunkerState.run c.inner).map
    (fun pr => renderChunk c.isStringInput (sliceBytes c.inner.buffer pr.1 pr.2))

/-- The state of a JS chunker after iterating it to exhaustion. -/
def JsChunker.drainJs (c : JsChunker) : JsChunker :=
  JsChunker.mk c.isStringInput (ChunkerState.drain c.inner)

/-- Does an `Except` result carry an error? -/
def isErr {ε α : Type} : Except ε α → Bool
  | .error _ => true
  | .ok _ => false

theorem scanBack_some {f : Nat → Bool} {lo hi p : Nat}
    (h : scanBack f lo hi = some p) : lo ≤ p ∧ p ≤ hi ∧ f p = true := by
  unfold scanBack at h
  have hf := List.find?_some h
  have hm := List.mem_of_find?_eq_some h
  rw [List.mem_reverse, List.mem_range'_1] at hm
  exact ⟨hm.1, by omega, hf⟩

theorem scanFwd_some {f : Nat → Bool} {lo hi p : Nat}
    (h : scanFwd f lo hi = some p) : lo ≤ p ∧ p ≤ hi ∧ f p = true := by
  unfold scanFwd at h
  have hf := List.find?_some h
  have hm := List.mem_of_find?_eq_some h
  rw [List.mem_range'_1] at hm
  exact ⟨hm.1, by omega, hf⟩

theorem runStart_le (f : Nat → Bool) : ∀ p, runStart f p ≤ p
  | 0 => Nat.le_refl 0
  | p + 1 => by
    unfold runStart
    split
    · exact Nat.le_trans (runStart_le f p) (Nat.le_succ p)
    · exact Nat.le_refl _

theorem patRunStartAux_le (buf pat : List Nat) :
    ∀ fuel r, patRunStartAux buf pat r fuel ≤ r
  | 0, r => Nat.le_refl r
  | fuel + 1, r => by
    unfold patRunStartAux
    split
    · exact Nat.le_trans (patRunStartAux_le buf pat fuel (r - pat.length))
        (Nat.sub_le r pat.length)
    · exact Nat.le_refl r

theorem patRunStart_le (buf pat : List Nat) (r : Nat) : patRunStart buf pat r ≤ r :=
  patRunStartAux_le buf pat r r

theorem matchAt_le {buf pat : List Nat} {p : Nat} (hne : pat ≠ [])
    (h : matchAt buf pat p = true) : p + pat.length ≤ buf.length := by
  unfold matchAt at h
  rw [ List.isPrefixOf_iff_prefix] at h
  have hlen := h.length_le
  rw [List.length_drop] at hlen
  have hpos : 0 < pat.length := List.length_pos.mpr hne
  omega

theorem placeDelim_le {buf ds : List Nat} {cfg : Configuration} {p : Nat} :
    placeDelim buf ds cfg p ≤ p + 1 := by
  unfold placeDelim
  split
  · exact Nat.le_trans (runStart_le _ p) (Nat.le_succ p)
  · split
    · exact Nat.le_succ p
    · exact Nat.le_refl _

theorem placePattern_le {buf pat : List Nat} {cfg : Configuration} {p : Nat}
    (hne : pat ≠ []) (hm : matchAt buf pat p = true) :
    placePattern buf pat cfg p ≤ buf.length := by
  have hb := matchAt_le hne hm
  unfold placePattern
  split
  · exact Nat.le_trans (patRunStart_le buf pat p) (by omega)
  · split
    · omega
    · omega

theorem valid_pattern_ne {cfg : Configuration} {pat : List Nat}
    (hv : cfg.valid = true) (heq : cfg.mode = Mode.byPattern pat) : pat ≠ [] := by
  intro hE
  subst hE
  unfold Configuration.valid at hv
  rw [heq] at hv
  simp at hv

theorem backCandidate_le {buf : List Nat} {cfg : Configuration}
    {cursor limit s : Nat} (hv : cfg.valid = true) (hlim : limit < buf.length)
    (h : backCandidate buf cfg cursor limit = some s) : s ≤ buf.length := by
  unfold backCandidate at h
  split at h
  · rw [Option.map_eq_some'] at h
    obtain ⟨p, hp, hps⟩ := h
    have := scanBack_some hp
    subst hps
    exact Nat.le_trans placeDelim_le (by omega)
  · rename_i pat heq
    rw [Option.map_eq_some'] at h
    obtain ⟨p, hp, hps⟩ := h
    have hs := scanBack_some hp
    subst hps
    exact placePattern_le (valid_pattern_ne hv heq) hs.2.2

theorem fwdCandidate_le {buf : List Nat} {cfg : Configuration}
    {limit s : Nat} (hv : cfg.valid = true) (hpos : 0 < buf.length)
    (h : fwdCandidate buf cfg limit buf.length = some s) : s ≤ buf.length := by
  unfold fwdCandidate at h
  split at h
  · rw [Option.map_eq_some'] at h
    obtain ⟨p, hp, hps⟩ := h
    have := scanFwd_some hp
    subst hps
    exact Nat.le_trans placeDelim_le (by omega)
  · rename_i pat heq
    rw [Option.map_eq_some'] at h
    obtain ⟨p, hp, hps⟩ := h
    have hs := scanFwd_some hp
    subst hps
    exact placePattern_le (valid_pattern_ne hv heq) hs.2.2

theorem nextSplit_gt {buf : List Nat} {cfg : Configuration} {cursor : Nat}
    (h : cursor < buf.length) : cursor < nextSplit buf cfg cursor := by
  unfold nextSplit
  split
  · exact h
  · split
    · omega
    · split
      · split
        · omega
        · omega
      · omega

theorem nextSplit_le {buf : List Nat} {cfg : Configuration} {cursor : Nat}
    (hv : cfg.valid = true) (h : cursor < buf.length) :
    nextSplit buf cfg cursor ≤ buf.length := by
  unfold nextSplit
  split
  · exact Nat.le_refl _
  · rename_i hne
    have hlim : min (cursor + cfg.targetSize) buf.length < buf.length := by
      omega
    split
    · rename_i s hs
      have := backCandidate_le hv hlim hs
      omega
    · split
      · split
        · rename_i s hs
          have := fwdCandidate_le hv (by omega) hs
          omega
        · omega
      · omega

/-- Boolean tiling check for a range list: the first range starts at
`lo`, every range is non-empty, consecutive ranges are contiguous, and
the last range ends at `hi` (an empty list tiles only the empty span). -/
def tiles : List (Nat × Nat) → Nat → Nat → Bool
  | [], lo, hi => lo == hi
  | (a, b) :: rest, lo, hi => a == lo && decide (lo < b) && tiles rest b hi

theorem offsetsLoop_tiles {buf : List Nat} {cfg : Configuration}
    (hv : cfg.valid = true) :
    ∀ fuel cursor, cursor ≤ buf.length → buf.length - cursor ≤ fuel →
      tiles (offsetsLoop buf cfg cursor fuel) cursor buf.length = true := by
  intro fuel
  induction fuel with
  | zero =>
    intro cursor h1 h2
    simp only [offsetsLoop, tiles, beq_iff_eq]
    omega
  | succ fuel ih =>
    intro cursor h1 h2
    by_cases hlen : buf.length ≤ cursor
    · simp only [offsetsLoop, if_pos hlen, tiles, beq_iff_eq]
      omega
    · have hgt := @nextSplit_gt buf cfg cursor (by omega)
      have hle := @nextSplit_le buf cfg cursor hv (by omega)
      simp only [offsetsLoop, if_neg hlen, tiles, Bool.and_eq_true, beq_self_eq_true,
        decide_eq_true_eq, true_and]
      exact ⟨hgt, ih (nextSplit buf cfg cursor) hle (by omega)⟩

theorem tiles_core {buf : List Nat} {cfg : Configuration} (hv : cfg.valid = true) :
    tiles (chunkOffsetsCore buf cfg) 0 buf.length = true :=
  offsetsLoop_tiles hv (buf.length + 1) 0 (Nat.zero_le _) (by omega)

theorem byteAt_mem {buf : List Nat} {p : Nat} (h : p < buf.length) :
    byteAt buf p ∈ buf := by
  unfold byteAt
  rw [List.getD_eq_getElem?_getD, List.getElem?_eq_getElem h]
  simp only [Option.getD_some]
  exact List.getElem_mem h

/-- No occurrence of the configured boundary anywhere in the buffer:
no byte is a delimiter, respectively no in-range position starts a
pattern match. -/
def noOccurrence (buf : List Nat) : Mode → Bool
  | .byDelimiterSet ds => buf.all (fun b => !isDelim ds b)
  | .byPattern pat => (List.range buf.length).all (fun p => !matchAt buf pat p)

theorem backCandidate_none {buf : List Nat} {cfg : Configuration}
    {cursor limit : Nat} (hno : noOccurrence buf cfg.mode = true)
    (hlim : limit < buf.length) :
    backCandidate buf cfg cursor limit = none := by
  unfold backCandidate
  split
  · rename_i ds heq
    cases hsb : scanBack (fun p => isDelim ds (byteAt buf p)) cursor limit with
    | none => rfl
    | some p =>
      have hs := scanBack_some hsb
      unfold noOccurrence at hno
      rw [heq] at hno
      rw [List.all_eq_true] at hno
      have := hno (byteAt buf p) (byteAt_mem (by omega))
      simp [hs.2.2] at this
  · rename_i pat heq
    cases hsb : scanBack (fun p => matchAt buf pat p) cursor limit with
    | none => rfl
    | some p =>
      have hs := scanBack_some hsb
      unfold noOccurrence at hno
      rw [heq] at hno
      rw [List.all_eq_true] at hno
      have := hno p (List.mem_range.mpr (by omega))
      simp [hs.2.2] at this

theorem nextSplit_noOcc {buf : List Nat} {cfg : Configuration} {cursor : Nat}
    (hv : cfg.valid = true) (hff : cfg.forwardFallback = false)
    (hno : noOccurrence buf cfg.mode = true) (_hc : cursor < buf.length) :
    nextSplit buf cfg cursor =
      if buf.length ≤ cursor + cfg.targetSize then buf.length
      else cursor + cfg.targetSize := by
  have hS : 0 < cfg.targetSize := by
    unfold Configuration.valid at hv
    rw [Bool.and_eq_true] at hv
    simpa using hv.1
  unfold nextSplit
  by_cases hfit : buf.length ≤ cursor + cfg.targetSize
  · rw [if_pos (by omega), if_pos hfit]
  · have hmin : min (cursor + cfg.targetSize) buf.length = cursor + cfg.targetSize := by
      omega
    rw [if_neg (by omega), if_neg hfit]
    rw [hmin, backCandidate_none hno (by omega), hff]
    simp
    omega

theorem offsetsLoop_sizes {buf : List Nat} {cfg : Configuration}
    (hv : cfg.valid = true) (hff : cfg.forwardFallback = false)
    (hno : noOccurrence buf cfg.mode = true) :
    ∀ fuel cursor pr, pr ∈ offsetsLoop buf cfg cursor fuel →
      pr.2 - pr.1 = cfg.targetSize ∨
        (pr.2 = buf.length ∧ pr.2 - pr.1 ≤ cfg.targetSize) := by
  intro fuel
  induction fuel with
  | zero => intro cursor pr h; simp [offsetsLoop] at h
  | succ fuel ih =>
    intro cursor pr h
    by_cases hlen : buf.length ≤ cursor
    · simp [offsetsLoop, if_pos hlen] at h
    · rw [show offsetsLoop buf cfg cursor (fuel + 1) =
          (cursor, nextSplit buf cfg cursor) ::
            offsetsLoop buf cfg (nextSplit buf cfg cursor) fuel by
        simp [offsetsLoop, if_neg hlen]] at h
      rcases List.mem_cons.mp h with hpr | hpr
      · subst hpr
        rw [nextSplit_noOcc hv hff hno (by omega)]
        by_cases hfit : buf.length ≤ cursor + cfg.targetSize
        · rw [if_pos hfit]
          right
          constructor
          · rfl
          · simp
            omega
        · rw [if_neg hfit]
          left
          simp
      · exact ih _ pr hpr

theorem core_sizes {buf : List Nat} {cfg : Configuration}
    (hv : cfg.valid = true) (hff : cfg.forwardFallback = false)
    (hno : noOccurrence buf cfg.mode = true) :
    ∀ pr ∈ chunkOffsetsCore buf cfg,
      pr.2 - pr.1 = cfg.targetSize ∨
        (pr.2 = buf.length ∧ pr.2 - pr.1 ≤ cfg.targetSize) :=
  fun pr h => offsetsLoop_sizes hv hff hno (buf.length + 1) 0 pr h

theorem advance_snd_fields {s : ChunkerState} {o : Option (Nat × Nat)}
    {s₂ : ChunkerState} (h : s.advance = (o, s₂)) :
    s₂.buffer = s.buffer ∧ s₂.config = s.config := by
  unfold ChunkerState.advance at h
  split at h
  · rw [Prod.mk.injEq] at h
    rw [← h.2]
    exact ⟨rfl, rfl⟩
  · split at h
    · rw [Prod.mk.injEq] at h
      rw [← h.2]
      exact ⟨rfl, rfl⟩
    · rw [Prod.mk.injEq] at h
      rw [← h.2]
      exact ⟨rfl, rfl⟩

theorem advance_some_facts {s : ChunkerState} {pr : Nat × Nat}
    {s₂ : ChunkerState} (h : s.advance = (some pr, s₂)) :
    s.exhausted = false ∧ s.cursor < s.buffer.length ∧
      pr = (s.cursor, nextSplit s.buffer s.config s.cursor) ∧
      s₂ = ChunkerState.mk s.buffer s.config (nextSplit s.buffer s.config s.cursor)
        (nextSplit s.buffer s.config s.cursor == s.buffer.length) := by
  unfold ChunkerState.advance at h
  split at h
  · rename_i hex
    rw [Prod.mk.injEq] at h
    exact absurd h.1 (by simp)
  · split at h
    · rw [Prod.mk.injEq] at h
      exact absurd h.1 (by simp)
    · rename_i hex hlen
      rw [Prod.mk.injEq] at h
      refine ⟨by simpa using hex, by omega, ?_, h.2.symm⟩
      exact (Option.some.inj h.1).symm

theorem advance_progress (s : ChunkerState) {o : Option (Nat × Nat)}
    {s₂ : ChunkerState} (h : s.advance = (o, s₂)) :
    s.cursor < s₂.cursor ∨ s₂.exhausted = true := by
  unfold ChunkerState.advance at h
  split at h
  · rename_i hex
    rw [Prod.mk.injEq] at h
    right
    rw [← h.2]
    simpa using hex
  · split at h
    · rw [Prod.mk.injEq] at h
      right
      rw [← h.2]
    · rename_i hex hlen
      rw [Prod.mk.injEq] at h
      left
      rw [← h.2]
      exact nextSplit_gt (by omega)

theorem runFuel_succ (fuel : Nat) (s : ChunkerState) :
    runFuel (fuel + 1) s =
      match s.advance with
      | (some pr, s') => pr :: runFuel fuel s'
      | (none, _) => [] := rfl

theorem runFuel_exhausted {s : ChunkerState} (h : s.exhausted = true) :
    ∀ fuel, runFuel fuel s = []
  | 0 => rfl
  | fuel + 1 => by
    rw [runFuel_succ]
    have hadv : s.advance = (none, s) := by
      unfold ChunkerState.advance
      rw [h]
      simp
    rw [hadv]

theorem offsetsLoop_done {buf : List Nat} {cfg : Configuration} {cursor : Nat}
    (h : buf.length ≤ cursor) : ∀ fuel, offsetsLoop buf cfg cursor fuel = []
  | 0 => rfl
  | fuel + 1 => by simp [offsetsLoop, h]

theorem runFuel_length : ∀ (fuel : Nat) (s : ChunkerState),
    (runFuel fuel s).length ≤ s.buffer.length - s.cursor := by
  intro fuel
  induction fuel with
  | zero => intro s; simp [runFuel]
  | succ fuel ih =>
    intro s
    rw [runFuel_succ]
    split
    · rename_i pr s₂ hadv
      obtain ⟨hex, hlen, hpr, hs₂⟩ := advance_some_facts hadv
      have hgt : s.cursor < s₂.cursor := by
        rw [hs₂]
        exact nextSplit_gt hlen
      have hbuf : s₂.buffer = s.buffer := by rw [hs₂]
      have := ih s₂
      rw [hbuf] at this
      simp only [List.length_cons]
      omega
    · simp

theorem runFuel_succ_eq : ∀ (fuel : Nat) (s : ChunkerState),
    s.buffer.length - s.cursor ≤ fuel → runFuel (fuel + 1) s = runFuel fuel s := by
  intro fuel
  induction fuel with
  | zero =>
    intro s h
    rw [runFuel_succ]
    split
    · rename_i pr s₂ hadv
      obtain ⟨hex, hlen, hpr, hs₂⟩ := advance_some_facts hadv
      omega
    · rfl
  | succ fuel ih =>
    intro s h
    rw [runFuel_succ fuel s]
    rw [runFuel_succ (fuel + 1) s]
    split
    · rename_i pr s₂ hadv
      obtain ⟨hex, hlen, hpr, hs₂⟩ := advance_some_facts hadv
      have hgt : s.cursor < s₂.cursor := by
        rw [hs₂]
        exact nextSplit_gt hlen
      have hbuf : s₂.buffer = s.buffer := by rw [hs₂]
      rw [ih s₂ (by rw [hbuf]; omega)]
    · rfl

theorem runFuel_stable : ∀ (k fuel : Nat) (s : ChunkerState),
    s.buffer.length - s.cursor ≤ fuel → runFuel (fuel + k) s = runFuel fuel s := by
  intro k
  induction k with
  | zero => intro fuel s h; rfl
  | succ k ih =>
    intro fuel s h
    rw [show fuel + (k + 1) = (fuel + k) + 1 by omega]
    rw [runFuel_succ_eq (fuel + k) s (by omega)]
    exact ih fuel s h

theorem runFuel_eq_offsetsLoop : ∀ (fuel : Nat) (s : ChunkerState),
    s.exhausted = false →
      runFuel fuel s = offsetsLoop s.buffer s.config s.cursor fuel := by
  intro fuel
  induction fuel with
  | zero => intro s h; rfl
  | succ fuel ih =>
    intro s h
    by_cases hlen : s.buffer.length ≤ s.cursor
    · have hadv : s.advance = (none, ChunkerState.mk s.buffer s.config s.cursor true) := by
        unfold ChunkerState.advance
        rw [h]
        simp [hlen]
      rw [runFuel_succ, hadv]
      rw [offsetsLoop_done hlen]
    · have hadv : s.advance =
          (some (s.cursor, nextSplit s.buffer s.config s.cursor),
            ChunkerState.mk s.buffer s.config (nextSplit s.buffer s.config s.cursor)
              (nextSplit s.buffer s.config s.cursor == s.buffer.length)) := by
        unfold ChunkerState.advance
        rw [h]
        simp [hlen]
      rw [runFuel_succ, hadv]
      rw [show offsetsLoop s.buffer s.config s.cursor (fuel + 1) =
          (s.cursor, nextSplit s.buffer s.config s.cursor) ::
            offsetsLoop s.buffer s.config (nextSplit s.buffer s.config s.cursor) fuel by
        simp [offsetsLoop, hlen]]
      show (s.cursor, nextSplit s.buffer s.config s.cursor) ::
          runFuel fuel (ChunkerState.mk s.buffer s.config
            (nextSplit s.buffer s.config s.cursor)
            (nextSplit s.buffer s.config s.cursor == s.buffer.length)) = _
      congr 1
      by_cases he : nextSplit s.buffer s.config s.cursor = s.buffer.length
      · rw [runFuel_exhausted (by simp [he]) fuel]
        rw [offsetsLoop_done (by omega) fuel]
      · exact ih (ChunkerState.mk s.buffer s.config
          (nextSplit s.buffer s.config s.cursor)
          (nextSplit s.buffer s.config s.cursor == s.buffer.length)) (by simp [he])

theorem run_fresh_eq_core (buf : List Nat) (cfg : Configuration) :
    (ChunkerState.fresh buf cfg).run = chunkOffsetsCore buf cfg :=
  runFuel_eq_offsetsLoop (buf.length + 1) (ChunkerState.fresh buf cfg) rfl

theorem drainFuel_fields : ∀ (fuel : Nat) (s : ChunkerState),
    (drainFuel fuel s).buffer = s.buffer ∧ (drainFuel fuel s).config = s.config := by
  intro fuel
  induction fuel with
  | zero => intro s; exact ⟨rfl, rfl⟩
  | succ fuel ih =>
    intro s
    rw [show drainFuel (fuel + 1) s =
        (match s.advance with
          | (some _, s') => drainFuel fuel s'
          | (none, s') => s') from rfl]
    split
    · rename_i pr s₂ hadv
      have hf := advance_snd_fields hadv
      have := ih s₂
      rw [hf.1, hf.2] at this
      exact this
    · rename_i s₂ hadv
      exact advance_snd_fields hadv

theorem reset_drain_eq_reset (s : ChunkerState) :
    (s.drain).reset = s.reset := by
  unfold ChunkerState.drain ChunkerState.reset
  rw [(drainFuel_fields _ s).1, (drainFuel_fields _ s).2]

theorem toPairs_flattenPairs : ∀ l : List (Nat × Nat), toPairs (flattenPairs l) = l
  | [] => rfl
  | (a, b) :: rest => by
    rw [flattenPairs, toPairs, toPairs_flattenPairs rest]

theorem chunkLoop_eq (isStr : Bool) (bytes : List Nat) :
    ∀ flat, chunkLoop isStr bytes flat =
      (toPairs flat).map (fun pr => renderChunk isStr (sliceBytes bytes pr.1 pr.2))
  | [] => rfl
  | [a] => rfl
  | a :: b :: rest => by
    rw [chunkLoop, toPairs, List.map_cons, chunkLoop_eq isStr bytes rest]

deriving instance DecidableEq for Except

theorem isErr_map {ε α β : Type} (f : α → β) :
    ∀ e : Except ε α, isErr (e.map f) = isErr e
  | .error _ => rfl
  | .ok _ => rfl

theorem exceptMap_ok {ε α β : Type} {f : α → β} {b : β} :
    ∀ {e : Except ε α}, e.map f = .ok b → ∃ a, e = .ok a ∧ b = f a
  | .error _, h => absurd h (by simp [Except.map])
  | .ok a, h => ⟨a, rfl, (Except.ok.inj h).symm⟩

/-- CLAIM C2: for every buffer and every valid configuration, the range
list returned by the batch entry point tiles the encoded buffer exactly:
the first range starts at 0, consecutive ranges are contiguous, ranges
are non-empty, and the last range ends at the buffer length. -/
theorem claim_C2 : ∀ (text : JsVal) (opts : JsOptions) (ps : List (Nat × Nat)),
    chunk_offsets text opts = .ok ps → tiles ps 0 (toBytes text).length = true := by
  intro text opts ps h
  unfold chunk_offsets at h
  split at h
  · unfold wasmChunkOffsetsPattern at h
    split at h
    · simp [Except.map] at h
    · split at h
      · simp [Except.map] at h
      · rename_i hsz hpe
        obtain ⟨flat, hfl, hps⟩ := exceptMap_ok h
        have hflat := Except.ok.inj hfl
        subst hps
        rw [← hflat, toPairs_flattenPairs]
        apply tiles_core
        unfold Configuration.valid
        simp only [Bool.and_eq_true, decide_eq_true_eq]
        exact ⟨by omega, by simpa using hpe⟩
  · unfold wasmChunkOffsets at h
    split at h
    · simp [Except.map] at h
    · rename_i hsz
      obtain ⟨flat, hfl, hps⟩ := exceptMap_ok h
      have hflat := Except.ok.inj hfl
      subst hps
      rw [← hflat, toPairs_flattenPairs]
      apply tiles_core
      unfold Configuration.valid
      simp only [Bool.and_eq_true, decide_eq_true_eq]
      exact ⟨by omega, by trivial⟩

theorem claim_C2_witness :
    tiles [(0, 4), (4, 5)] 0 (toBytes (JsVal.str "a.b.c")).length = true :=
  claim_C2 (JsVal.str "a.b.c") (JsOptions.mk (some 3) none none none none none)
    [(0, 4), (4, 5)] (by decide)

/-- CLAIM C3: the batch-offsets computation produces exactly the ordered
range list obtained by constructing a fresh chunker and advancing it to
exhaustion; this also holds through the JavaScript entry points, and
`collect_offsets` on a fresh chunker equals the flat batch result. -/
theorem claim_C3 :
    (∀ (buf : List Nat) (cfg : Configuration),
      chunkOffsetsCore buf cfg = (ChunkerState.fresh buf cfg).run) ∧
    (∀ (text : JsVal) (opts : JsOptions),
      (JsChunker.construct text opts).map (fun c => ChunkerState.run c.inner) =
        chunk_offsets text opts) ∧
    (∀ (buf : List Nat) (cfg : Configuration),
      ChunkerState.collect_offsets (ChunkerState.fresh buf cfg) =
        flattenPairs (chunkOffsetsCore buf cfg)) := by
  refine ⟨fun buf cfg => (run_fresh_eq_core buf cfg).symm, ?_, ?_⟩
  · intro text opts
    unfold JsChunker.construct chunk_offsets
    by_cases ht : truthy opts.pattern
    · rw [if_pos ht, if_pos ht]
      unfold ChunkerState.with_pattern wasmChunkOffsetsPattern
      split
      · rfl
      · split
        · rfl
        · show Except.ok (ChunkerState.run (JsChunker.mk (isStringVal text) _).inner) =
            Except.ok (toPairs (flattenPairs (chunkOffsetsCore _ _)))
          rw [toPairs_flattenPairs, run_fresh_eq_core]
    · rw [if_neg ht, if_neg ht]
      unfold ChunkerState.construct wasmChunkOffsets
      split
      · rfl
      · show Except.ok (ChunkerState.run (JsChunker.mk (isStringVal text) _).inner) =
          Except.ok (toPairs (flattenPairs (chunkOffsetsCore _ _)))
        rw [toPairs_flattenPairs, run_fresh_eq_core]
  · intro buf cfg
    unfold ChunkerState.collect_offsets
    rw [run_fresh_eq_core]

/-- CLAIM C5: for every non-empty buffer and valid configuration,
iteration terminates in at most `len(buffer)` advance steps: the run has
at most `len(buffer)` chunks, `len(buffer)` steps of fuel already
produce the full run, and every advance step strictly increases the
cursor or leaves the chunker exhausted. -/
theorem claim_C5 : ∀ (buf : List Nat) (cfg : Configuration),
    cfg.valid = true → buf ≠ [] →
    (ChunkerState.fresh buf cfg).run.length ≤ buf.length ∧
    (∀ fuel, buf.length ≤ fuel →
      runFuel fuel (ChunkerState.fresh buf cfg) = (ChunkerState.fresh buf cfg).run) ∧
    (∀ (s : ChunkerState) (o : Option (Nat × Nat)) (s₂ : ChunkerState),
      s.advance = (o, s₂) → s.cursor < s₂.cursor ∨ s₂.exhausted = true) := by
  intro buf cfg _hv _hne
  refine ⟨?_, ?_, fun s o s₂ h => advance_progress s h⟩
  · have h := runFuel_length (buf.length + 1) (ChunkerState.fresh buf cfg)
    simpa using h
  · intro fuel hf
    have hfuel : (ChunkerState.fresh buf cfg).buffer.length -
        (ChunkerState.fresh buf cfg).cursor ≤ buf.length := by
      show buf.length - 0 ≤ buf.length
      omega
    have h1 : runFuel fuel (ChunkerState.fresh buf cfg) =
        runFuel buf.length (ChunkerState.fresh buf cfg) := by
      rw [show fuel = buf.length + (fuel - buf.length) by omega]
      exact runFuel_stable (fuel - buf.length) buf.length _ hfuel
    have h2 : (ChunkerState.fresh buf cfg).run =
        runFuel buf.length (ChunkerState.fresh buf cfg) :=
      runFuel_succ_eq buf.length _ hfuel
    rw [h1, h2]

theorem claim_C5_witness :
    (ChunkerState.fresh [1, 2, 3]
      (Configuration.mk 2 (Mode.byDelimiterSet [46]) false false false)).run.length ≤
      3 :=
  (claim_C5 [1, 2, 3] (Configuration.mk 2 (Mode.byDelimiterSet [46]) false false false)
    (by decide) (by decide)).1

/-- CLAIM C6: on a buffer with no occurrence of the configured delimiter
or pattern, with forward fallback disabled, every returned chunk is
exactly `targetSize` bytes long, except the final chunk (the one ending
at the buffer length), which is at most `targetSize` bytes. -/
theorem claim_C6 : ∀ (buf : List Nat) (cfg : Configuration),
    cfg.valid = true → cfg.forwardFallback = false →
    noOccurrence buf cfg.mode = true →
    ∀ pr ∈ chunkOffsetsCore buf cfg,
      pr.2 - pr.1 = cfg.targetSize ∨
        (pr.2 = buf.length ∧ pr.2 - pr.1 ≤ cfg.targetSize) :=
  fun _buf _cfg hv hff hno => core_sizes hv hff hno

theorem claim_C6_witness :
    ((0, 2) : Nat × Nat).2 - ((0, 2) : Nat × Nat).1 = 2 ∨
      (((0, 2) : Nat × Nat).2 = 5 ∧
        ((0, 2) : Nat × Nat).2 - ((0, 2) : Nat × Nat).1 ≤ 2) :=
  claim_C6 [1, 2, 3, 4, 5]
    (Configuration.mk 2 (Mode.byDelimiterSet [10, 46, 63]) false false false)
    (by decide) rfl (by decide) (0, 2) (by decide)

theorem wasmPattern_err_iff (buf : List Nat) (size : Nat) (pat : List Nat)
    (a b c : Option Bool) :
    isErr (wasmChunkOffsetsPattern buf size pat a b c) = true ↔
      (size = 0 ∨ pat = []) := by
  unfold wasmChunkOffsetsPattern
  split
  · rename_i hsz
    exact iff_of_true (by simp [isErr]) (Or.inl hsz)
  · split
    · rename_i hsz hpe
      exact iff_of_true (by simp [isErr]) (Or.inr (by simpa using hpe))
    · rename_i hsz hpe
      refine iff_of_false (by simp [isErr]) ?_
      rintro (h | h)
      · exact hsz h
      · exact hpe (by simp [h])

theorem withPattern_err_iff (buf : List Nat) (size : Nat) (pat : List Nat)
    (a b c : Option Bool) :
    isErr (ChunkerState.with_pattern buf size pat a b c) = true ↔
      (size = 0 ∨ pat = []) := by
  unfold ChunkerState.with_pattern
  split
  · rename_i hsz
    exact iff_of_true (by simp [isErr]) (Or.inl hsz)
  · split
    · rename_i hsz hpe
      exact iff_of_true (by simp [isErr]) (Or.inr (by simpa using hpe))
    · rename_i hsz hpe
      refine iff_of_false (by simp [isErr]) ?_
      rintro (h | h)
      · exact hsz h
      · exact hpe (by simp [h])

theorem wasmOffsets_err_iff (buf : List Nat) (size : Option Nat)
    (delims : Option String) (pfx : Option Bool) :
    isErr (wasmChunkOffsets buf size delims pfx) = true ↔
      size.getD default_target_size = 0 := by
  unfold wasmChunkOffsets
  split
  · rename_i hsz
    exact iff_of_true (by simp [isErr]) hsz
  · rename_i hsz
    exact iff_of_false (by simp [isErr]) hsz

theorem constructWasm_err_iff (buf : List Nat) (size : Option Nat)
    (delims : Option String) (pfx : Option Bool) :
    isErr (ChunkerState.construct buf size delims pfx) = true ↔
      size.getD default_target_size = 0 := by
  unfold ChunkerState.construct
  split
  · rename_i hsz
    exact iff_of_true (by simp [isErr]) hsz
  · rename_i hsz
    exact iff_of_false (by simp [isErr]) hsz

/-- CLAIM C1 (amended): through the JavaScript entry points,
`InvalidConfig` is raised if and only if the caller passed `size: 0`, or
passed a truthy `pattern` whose byte encoding is empty (an empty
`Uint8Array`).  Supplying both `delimiters` and a truthy `pattern` does
not raise: pattern mode is selected and the delimiters are ignored, and
an empty-string pattern is falsy and selects delimiter mode.  On failure
the `Except` carries only the error: no partial chunker is produced. -/
theorem claim_C1 : ∀ (text : JsVal) (opts : JsOptions),
    (isErr (chunk_offsets text opts) = true ↔
      (opts.size = some 0 ∨
        (truthy opts.pattern = true ∧ patternToBytes opts.pattern = []))) ∧
    (isErr (chunk text opts) = true ↔
      (opts.size = some 0 ∨
        (truthy opts.pattern = true ∧ patternToBytes opts.pattern = []))) ∧
    (isErr (JsChunker.construct text opts) = true ↔
      (opts.size = some 0 ∨
        (truthy opts.pattern = true ∧ patternToBytes opts.pattern = []))) := by
  intro text opts
  by_cases ht : truthy opts.pattern = true
  · unfold chunk_offsets chunk JsChunker.construct
    rw [if_pos ht, if_pos ht]
    rw [isErr_map, isErr_map, isErr_map]
    rw [wasmPattern_err_iff, withPattern_err_iff]
    rw [show (opts.size.getD 4096 = 0) ↔ opts.size = some 0 by
      cases opts.size <;> simp]
    refine ⟨?_, ?_, ?_⟩ <;> simp [ht]
  · have ht' : truthy opts.pattern = false := by
      cases h : truthy opts.pattern
      · rfl
      · exact absurd h ht
    unfold chunk_offsets chunk JsChunker.construct
    rw [if_neg ht, if_neg ht]
    rw [isErr_map, isErr_map, isErr_map]
    rw [wasmOffsets_err_iff, constructWasm_err_iff]
    rw [show (opts.size.getD default_target_size = 0) ↔ opts.size = some 0 by
      cases opts.size <;> simp [default_target_size]]
    refine ⟨?_, ?_, ?_⟩ <;> simp [ht']

/-- CLAIM C1, counterexample to the original statement: supplying both
`delimiters` and a (non-empty) `pattern` simultaneously does not raise
`InvalidConfig`, and neither does an empty-string `pattern` (which is
falsy and selects delimiter mode), contradicting the claimed
if-and-only-if error condition. -/
theorem claim_C1_counterexample :
    (JsOptions.mk (some 5) (some ".") (some (JsVal.str "x"))
        none none none).delimiters ≠ none ∧
    (JsOptions.mk (some 5) (some ".") (some (JsVal.str "x"))
        none none none).pattern ≠ none ∧
    isErr (chunk_offsets (JsVal.str "ab")
      (JsOptions.mk (some 5) (some ".") (some (JsVal.str "x"))
        none none none)) = false ∧
    isErr (chunk_offsets (JsVal.str "ab")
      (JsOptions.mk (some 5) none (some (JsVal.str ""))
        none none none)) = false := by decide

theorem construct_ok_shape {text : JsVal} {opts : JsOptions} {c : JsChunker}
    (h : JsChunker.construct text opts = .ok c) :
    ∃ cfg : Configuration,
      c = JsChunker.mk (isStringVal text) (ChunkerState.fresh (toBytes text) cfg) := by
  unfold JsChunker.construct at h
  split at h
  · unfold ChunkerState.with_pattern at h
    split at h
    · simp [Except.map] at h
    · split at h
      · simp [Except.map] at h
      · obtain ⟨st, hst, hc⟩ := exceptMap_ok h
        exact ⟨_, by rw [hc, ← Except.ok.inj hst]⟩
  · unfold ChunkerState.construct at h
    split at h
    · simp [Except.map] at h
    · obtain ⟨st, hst, hc⟩ := exceptMap_ok h
      exact ⟨_, by rw [hc, ← Except.ok.inj hst]⟩

theorem resetJs_drainJs_fresh (isStr : Bool) (buf : List Nat) (cfg : Configuration) :
    ((JsChunker.mk isStr (ChunkerState.fresh buf cfg)).drainJs).resetJs =
      JsChunker.mk isStr (ChunkerState.fresh buf cfg) := by
  show JsChunker.mk isStr (((ChunkerState.fresh buf cfg).drain).reset) = _
  rw [reset_drain_eq_reset]
  rfl

/-- CLAIM C4: iterating a freshly constructed chunker to exhaustion,
calling `reset`, and iterating again produces output identical to the
first pass over the fresh chunker (for any buffer and any accepted
configuration). -/
theorem claim_C4 : ∀ (text : JsVal) (opts : JsOptions) (c : JsChunker),
    JsChunker.construct text opts = .ok c →
    ((c.drainJs).resetJs).iterate = c.iterate := by
  intro text opts c h
  obtain ⟨cfg, hc⟩ := construct_ok_shape h
  subst hc
  rw [resetJs_drainJs_fresh]

theorem claim_C4_witness :
    ((JsChunker.mk true (ChunkerState.mk [97, 46, 98]
        (Configuration.mk 2 (Mode.byDelimiterSet [10, 46, 63]) false false false)
        0 false)).drainJs.resetJs).iterate =
      (JsChunker.mk true (ChunkerState.mk [97, 46, 98]
        (Configuration.mk 2 (Mode.byDelimiterSet [10, 46, 63]) false false false)
        0 false)).iterate :=
  claim_C4 (JsVal.str "a.b") (JsOptions.mk (some 2) none none none none none)
    (JsChunker.mk true (ChunkerState.mk [97, 46, 98]
      (Configuration.mk 2 (Mode.byDelimiterSet [10, 46, 63]) false false false)
      0 false)) (by decide)

/-- CLAIM C7 (amended): chunking `"Hello▁World▁Test"` in pattern mode
with pattern `"▁"` and prefix enabled yields exactly the chunks
`"Hello"`, `"▁World"`, `"▁Test"` for a target size whose window
boundary falls between consecutive pattern occurrences, e.g.
`size = 10`; with the default target size 4096 the whole buffer fits in
one window and is returned as a single chunk. -/
theorem claim_C7 :
    chunk (JsVal.str "Hello▁World▁Test")
        (JsOptions.mk (some 10) none (some (JsVal.str "▁")) (some true) none none) =
      .ok [JsVal.str "Hello", JsVal.str "▁World", JsVal.str "▁Test"] := by decide

/-- CLAIM C7, counterexample to the original statement: with the
configuration as literally given (pattern `"▁"`, prefix enabled, no
target size so the default 4096 applies), the remainder of the 20-byte
buffer fits the first window, so the whole buffer is returned as one
chunk and the claimed three-chunk sequence is not produced. -/
theorem claim_C7_counterexample :
    chunk (JsVal.str "Hello▁World▁Test")
        (JsOptions.mk none none (some (JsVal.str "▁")) (some true) none none) =
      .ok [JsVal.str "Hello▁World▁Test"] ∧
    chunk (JsVal.str "Hello▁World▁Test")
        (JsOptions.mk none none (some (JsVal.str "▁")) (some true) none none) ≠
      .ok [JsVal.str "Hello", JsVal.str "▁World", JsVal.str "▁Test"] := by decide

theorem mem_chunkLoop (isStr : Bool) (bytes : List Nat) :
    ∀ (flat : List Nat) (x : JsVal), x ∈ chunkLoop isStr bytes flat →
      ∃ a b, x = renderChunk isStr (sliceBytes bytes a b)
  | [], x, h => absurd h (by simp [chunkLoop])
  | [a], x, h => absurd h (by simp [chunkLoop])
  | a :: b :: rest, x, h => by
    rw [chunkLoop] at h
    rcases List.mem_cons.mp h with h | h
    · exact ⟨a, b, h⟩
    · exact mem_chunkLoop isStr bytes rest x h

theorem chunk_ok_shape {text : JsVal} {opts : JsOptions} {l : List JsVal}
    (h : chunk text opts = .ok l) :
    ∃ flat, l = chunkLoop (isStringVal text) (toBytes text) flat := by
  unfold chunk at h
  split at h
  · obtain ⟨flat, _, hl⟩ := exceptMap_ok h
    exact ⟨flat, hl⟩
  · obtain ⟨flat, _, hl⟩ := exceptMap_ok h
    exact ⟨flat, hl⟩

theorem next_some_shape {s : ChunkerState} {bs : List Nat} {s₂ : ChunkerState}
    (h : s.next = (some bs, s₂)) : ∃ a b, bs = sliceBytes s.buffer a b := by
  unfold ChunkerState.next at h
  split at h
  · rw [Prod.mk.injEq] at h
    exact absurd h.1 (by simp)
  · rename_i pr s' hadv
    rw [Prod.mk.injEq] at h
    exact ⟨pr.1, pr.2, (Option.some.inj h.1).symm⟩

theorem nextJs_some_render {c : JsChunker} {r : JsVal} {c₂ : JsChunker}
    (h : c.nextJs = (some r, c₂)) :
    ∃ a b, r = renderChunk c.isStringInput (sliceBytes c.inner.buffer a b) := by
  unfold JsChunker.nextJs at h
  split at h
  · rw [Prod.mk.injEq] at h
    exact absurd h.1 (by simp)
  · rename_i bs s₂ hnext
    rw [Prod.mk.injEq] at h
    obtain ⟨a, b, hbs⟩ := next_some_shape hnext
    exact ⟨a, b, by rw [← Option.some.inj h.1, hbs]⟩

theorem mem_iterate {c : JsChunker} {x : JsVal} (h : x ∈ c.iterate) :
    ∃ a b, x = renderChunk c.isStringInput (sliceBytes c.inner.buffer a b) := by
  unfold JsChunker.iterate at h
  obtain ⟨pr, _, hx⟩ := List.mem_map.mp h
  exact ⟨pr.1, pr.2, hx.symm⟩

/-- CLAIM C8: the chunk generator preserves the input's type: a string
input yields only strings (UTF-8 decodings of byte slices) and a byte
input yields only byte slices of the original buffer; the same holds for
the Chunker's iterator and its `next` method. -/
theorem claim_C8 : ∀ (opts : JsOptions),
    (∀ (s : String) (l : List JsVal), chunk (JsVal.str s) opts = .ok l →
      ∀ x ∈ l, ∃ t, x = JsVal.str t) ∧
    (∀ (bs : List Nat) (l : List JsVal), chunk (JsVal.bytes bs) opts = .ok l →
      ∀ x ∈ l, ∃ a b, x = JsVal.bytes (sliceBytes bs a b)) ∧
    (∀ (s : String) (c : JsChunker), JsChunker.construct (JsVal.str s) opts = .ok c →
      (∀ x ∈ c.iterate, ∃ t, x = JsVal.str t) ∧
      (∀ (r : JsVal) (c₂ : JsChunker), c.nextJs = (some r, c₂) →
        ∃ t, r = JsVal.str t)) ∧
    (∀ (bs : List Nat) (c : JsChunker), JsChunker.construct (JsVal.bytes bs) opts = .ok c →
      (∀ x ∈ c.iterate, ∃ a b, x = JsVal.bytes (sliceBytes bs a b)) ∧
      (∀ (r : JsVal) (c₂ : JsChunker), c.nextJs = (some r, c₂) →
        ∃ a b, r = JsVal.bytes (sliceBytes bs a b))) := by
  intro opts
  refine ⟨?_, ?_, ?_, ?_⟩
  · intro s l h x hx
    obtain ⟨flat, hl⟩ := chunk_ok_shape h
    subst hl
    obtain ⟨a, b, hx⟩ := mem_chunkLoop _ _ flat x hx
    exact ⟨utf8Decode (sliceBytes (toBytes (JsVal.str s)) a b), hx⟩
  · intro bs l h x hx
    obtain ⟨flat, hl⟩ := chunk_ok_shape h
    subst hl
    obtain ⟨a, b, hx⟩ := mem_chunkLoop _ _ flat x hx
    exact ⟨a, b, hx⟩
  · intro s c h
    obtain ⟨cfg, hc⟩ := construct_ok_shape h
    subst hc
    constructor
    · intro x hx
      obtain ⟨a, b, hx⟩ := mem_iterate hx
      exact ⟨utf8Decode (sliceBytes (toBytes (JsVal.str s)) a b), hx⟩
    · intro r c₂ hn
      obtain ⟨a, b, hr⟩ := nextJs_some_render hn
      exact ⟨utf8Decode (sliceBytes (toBytes (JsVal.str s)) a b), hr⟩
  · intro bs c h
    obtain ⟨cfg, hc⟩ := construct_ok_shape h
    subst hc
    constructor
    · intro x hx
      obtain ⟨a, b, hx⟩ := mem_iterate hx
      exact ⟨a, b, hx⟩
    · intro r c₂ hn
      obtain ⟨a, b, hr⟩ := nextJs_some_render hn
      exact ⟨a, b, hr⟩

theorem claim_C8_witness :
    ∃ t, JsVal.str "ab" = JsVal.str t :=
  (claim_C8 (JsOptions.mk none none none none none none)).1 "ab"
    [JsVal.str "ab"] (by decide) (JsVal.str "ab") (by decide)

/-- CLAIM C9: mode selection in `chunk`, `chunk_offsets` and the
`Chunker` constructor is decided by JavaScript truthiness of the
`pattern` option: exactly the non-empty strings and all byte arrays
(including the empty one) are truthy and select pattern mode, in which
case the `delimiters` option is silently ignored; otherwise delimiter
mode is selected. -/
theorem claim_C9 :
    (∀ p : Option JsVal, truthy p = true ↔
      ((∃ s, p = some (JsVal.str s) ∧ s ≠ "") ∨
        (∃ bs, p = some (JsVal.bytes bs)))) ∧
    (∀ (text : JsVal) (opts : JsOptions) (d : Option String),
      truthy opts.pattern = true →
        chunk_offsets text (JsOptions.mk opts.size d opts.pattern opts.prefixFlag
            opts.consecutive opts.forwardFallback) = chunk_offsets text opts ∧
        chunk text (JsOptions.mk opts.size d opts.pattern opts.prefixFlag
            opts.consecutive opts.forwardFallback) = chunk text opts ∧
        JsChunker.construct text (JsOptions.mk opts.size d opts.pattern
            opts.prefixFlag opts.consecutive opts.forwardFallback) =
          JsChunker.construct text opts) ∧
    (∀ (text : JsVal) (opts : JsOptions), truthy opts.pattern = false →
      chunk_offsets text opts =
        (wasmChunkOffsets (toBytes text) opts.size opts.delimiters
          opts.prefixFlag).map toPairs) ∧
    (∀ (text : JsVal) (opts : JsOptions), truthy opts.pattern = true →
      chunk_offsets text opts =
        (wasmChunkOffsetsPattern (toBytes text) (opts.size.getD 4096)
          (patternToBytes opts.pattern) opts.prefixFlag opts.consecutive
          opts.forwardFallback).map toPairs) := by
  refine ⟨?_, ?_, ?_, ?_⟩
  · intro p
    cases p with
    | none => simp [truthy]
    | some v =>
      cases v with
      | str s => simp [truthy]
      | bytes bs => simp [truthy]
  · intro text opts d ht
    refine ⟨?_, ?_, ?_⟩
    · unfold chunk_offsets
      rw [if_pos ht, if_pos ht]
    · unfold chunk
      rw [if_pos ht, if_pos ht]
    · unfold JsChunker.construct
      rw [if_pos ht, if_pos ht]
  · intro text opts ht
    unfold chunk_offsets
    rw [if_neg (by simp [ht])]
  · intro text opts ht
    unfold chunk_offsets
    rw [if_pos ht]

theorem claim_C9_witness :
    chunk_offsets (JsVal.str "a")
        (JsOptions.mk none (some ".") (some (JsVal.bytes [46])) none none none) =
      chunk_offsets (JsVal.str "a")
        (JsOptions.mk none none (some (JsVal.bytes [46])) none none none) :=
  (claim_C9.2.1 (JsVal.str "a")
    (JsOptions.mk none none (some (JsVal.bytes [46])) none none none)
    (some ".") (by decide)).1

theorem mapChunk_eq (isStr : Bool) (bytes : List Nat) :
    ∀ e : Except ChunkError (List Nat),
      e.map (chunkLoop isStr bytes) =
        (e.map toPairs).map (fun ps => ps.map
          (fun pr => renderChunk isStr (sliceBytes bytes pr.1 pr.2)))
  | .error _ => rfl
  | .ok flat => by
    show Except.ok (chunkLoop isStr bytes flat) = Except.ok _
    rw [chunkLoop_eq]

/-- CLAIM C10: for every input and options, `chunk` yields exactly the
rendered byte slices delimited by the offset pairs that `chunk_offsets`
returns for the same input: both entry points compute the same
underlying flat offset list. -/
theorem claim_C10 : ∀ (text : JsVal) (opts : JsOptions),
    chunk text opts = (chunk_offsets text opts).map
      (fun ps => ps.map (fun pr => renderChunk (isStringVal text)
        (sliceBytes (toBytes text) pr.1 pr.2))) := by
  intro text opts
  unfold chunk chunk_offsets
  exact mapChunk_eq (isStringVal text) (toBytes text) _
